import Mathlib

/-
Verification of the live-caption overlay pipeline in src/twitch_overlay.py.

The Python program captures audio frames in a device callback, accumulates
them in a buffer until 1.5 s of samples are available, transcribes the
buffer, appends non-empty transcriptions to a bounded rolling list of lines,
and serves the lines over an HTTP event stream.

Shallow embedding conventions:
* float32 audio samples and float timestamps are modelled as rationals (ℚ);
* the frame queue and the mutable buffer/line list become explicit values
  threaded through step functions;
* the Whisper engine call, which can raise, is an `Except String String`
  input to the processing step (error message or returned text);
* logging is modelled as a list of emitted log strings.
-/

/-- Audio samples (float32 in the source) are modelled as rationals. -/
abbrev Sample := ℚ

/-- Configuration constant `SAMPLE_RATE = 16000` (twitch_overlay.py line 16). -/
def SAMPLE_RATE : Nat := 16000

/-- Configuration constant `BLOCKSIZE = 2048` (line 17). -/
def BLOCKSIZE : Nat := 2048

/-- Configuration constant `MAX_LINES = 3` (line 18). -/
def MAX_LINES : Nat := 3

/-- The segment threshold `SAMPLE_RATE * 1.5` from line 134. The float
literal 1.5 is exactly representable, so the product is modelled exactly
over ℚ as `SAMPLE_RATE * (3 / 2)`. -/
def segThreshold : ℚ := (SAMPLE_RATE : ℚ) * (3 / 2)

/-- The segment threshold expressed as a whole number of samples (24000). -/
def SEG_SAMPLES : Nat := SAMPLE_RATE * 3 / 2

theorem segThreshold_le_iff (n : Nat) : segThreshold ≤ (n : ℚ) ↔ SEG_SAMPLES ≤ n := by
  have h1 : segThreshold = ((24000 : Nat) : ℚ) := by
    norm_num [segThreshold, SAMPLE_RATE]
  have h2 : SEG_SAMPLES = 24000 := by norm_num [SEG_SAMPLES, SAMPLE_RATE]
  rw [h1, h2, Nat.cast_le]

/-- One iteration of the buffer accumulation in `process_audio`
(lines 131-134 and 159): the popped frame is appended to the buffer
(`buffer = np.concatenate((buffer, block))`); if the buffer has reached
`SAMPLE_RATE * 1.5` samples the whole buffer is emitted as a segment and
the buffer is reset to empty, otherwise the buffer keeps growing and
nothing is emitted. -/
def segStep (buffer frame : List Sample) : List Sample × Option (List Sample) :=
  if segThreshold ≤ (((buffer ++ frame).length : Nat) : ℚ) then
    ([], some (buffer ++ frame))
  else
    (buffer ++ frame, none)

/-- The segmentation part of the `process_audio` loop run over a list of
frames popped from the queue, starting from a given buffer. Returns the
final residual buffer and the emitted segments in emission order. -/
def segRun (buffer : List Sample) : List (List Sample) → List Sample × List (List Sample)
  | [] => (buffer, [])
  | f :: fs =>
    ((segRun (segStep buffer f).1 fs).1,
     (segStep buffer f).2.toList ++ (segRun (segStep buffer f).1 fs).2)

theorem segRun_flatten (frames : List (List Sample)) (buffer : List Sample) :
    (segRun buffer frames).2.flatten ++ (segRun buffer frames).1
      = buffer ++ frames.flatten := by
  induction frames generalizing buffer with
  | nil => simp [segRun]
  | cons f fs ih =>
    by_cases h : segThreshold ≤ (((buffer ++ f).length : Nat) : ℚ)
    · simp only [segRun, segStep, if_pos h, Option.toList_some, List.singleton_append,
        List.flatten_cons, List.append_assoc]
      rw [ih]
      simp
    · simp only [segRun, segStep, if_neg h, Option.toList_none, List.nil_append]
      rw [ih]
      simp

theorem segRun_segments_ge (frames : List (List Sample)) (buffer : List Sample) :
    ∀ s ∈ (segRun buffer frames).2, SEG_SAMPLES ≤ s.length := by
  induction frames generalizing buffer with
  | nil => simp [segRun]
  | cons f fs ih =>
    intro s hs
    by_cases h : segThreshold ≤ (((buffer ++ f).length : Nat) : ℚ)
    · simp only [segRun, segStep, if_pos h, Option.toList_some, List.singleton_append,
        List.mem_cons] at hs
      rcases hs with rfl | hs
      · exact (segThreshold_le_iff _).1 h
      · exact ih [] s hs
    · simp only [segRun, segStep, if_neg h, Option.toList_none, List.nil_append] at hs
      exact ih (buffer ++ f) s hs

theorem segRun_segments_lt (frames : List (List Sample)) (buffer : List Sample)
    (hbuf : buffer.length < SEG_SAMPLES)
    (hfr : ∀ f ∈ frames, f.length = BLOCKSIZE) :
    ∀ s ∈ (segRun buffer frames).2, s.length < SEG_SAMPLES + BLOCKSIZE := by
  induction frames generalizing buffer with
  | nil => simp [segRun]
  | cons f fs ih =>
    intro s hs
    have hf : f.length = BLOCKSIZE := hfr f (by simp)
    have hfr' : ∀ g ∈ fs, g.length = BLOCKSIZE := fun g hg => hfr g (by simp [hg])
    by_cases h : segThreshold ≤ (((buffer ++ f).length : Nat) : ℚ)
    · simp only [segRun, segStep, if_pos h, Option.toList_some, List.singleton_append,
        List.mem_cons] at hs
      rcases hs with rfl | hs
      · have : (buffer ++ f).length = buffer.length + f.length := by simp
        omega
      · exact ih [] (by simp [SEG_SAMPLES, SAMPLE_RATE]) hfr' s hs
    · simp only [segRun, segStep, if_neg h, Option.toList_none, List.nil_append] at hs
      have hlt : (buffer ++ f).length < SEG_SAMPLES := by
        by_contra hge
        exact h ((segThreshold_le_iff _).2 (Nat.le_of_not_lt hge))
      exact ih (buffer ++ f) hlt hfr' s hs

/-- C1 (as stated) is false on the code: pushing a single one-sample frame
`[0]` (fewer samples than the threshold) emits zero segments, so the
concatenation of emitted segments (`[]`) is not the concatenation of the
pushed frames (`[0]`); the claim nonetheless asserts that equality for
every sequence of frames. -/
theorem c1_counterexample :
    (segRun [] [[(0 : Sample)]]).2.flatten
      ≠ ([[(0 : Sample)]] : List (List Sample)).flatten := by
  have hcond : ¬ segThreshold ≤ (1 : ℚ) := by
    norm_num [segThreshold, SAMPLE_RATE]
  simp [segRun, segStep, hcond]

/-- C1 (amended): for every sequence of pushed frames, the concatenation of
the emitted segments followed by the residual (not yet emitted) buffer
equals the concatenation of the pushed frames — no sample duplicated or
dropped; every emitted segment has at least `SEG_SAMPLES` samples; and an
input totalling fewer samples than the threshold yields zero segments. -/
theorem c1_segmentation_amended (frames : List (List Sample)) :
    (segRun [] frames).2.flatten ++ (segRun [] frames).1 = frames.flatten
    ∧ (∀ s ∈ (segRun [] frames).2, SEG_SAMPLES ≤ s.length)
    ∧ (frames.flatten.length < SEG_SAMPLES → (segRun [] frames).2 = []) := by
  refine ⟨by simpa using segRun_flatten frames [], segRun_segments_ge frames [], ?_⟩
  intro hlt
  cases hsegs : (segRun [] frames).2 with
  | nil => rfl
  | cons s rest =>
    exfalso
    have hge : SEG_SAMPLES ≤ s.length :=
      segRun_segments_ge frames [] s (by rw [hsegs]; simp)
    have hflat : (segRun [] frames).2.flatten ++ (segRun [] frames).1
        = frames.flatten := by
      simpa using segRun_flatten frames []
    have hlen := congrArg List.length hflat
    rw [hsegs] at hlen
    simp only [List.flatten_cons, List.length_append] at hlen
    omega

theorem c1_segmentation_amended_witness :
    ((segRun [] [[(0 : Sample)]]).2.flatten ++ (segRun [] [[(0 : Sample)]]).1
      = ([[(0 : Sample)]] : List (List Sample)).flatten)
    ∧ (segRun [] [[(0 : Sample)]]).2 = [] :=
  ⟨(c1_segmentation_amended [[(0 : Sample)]]).1,
   (c1_segmentation_amended [[(0 : Sample)]]).2.2 (by decide)⟩

/-- C5: when every captured frame has `BLOCKSIZE` samples (as delivered by
the device stream opened with `blocksize=BLOCKSIZE`), every emitted segment
has at least `SAMPLE_RATE * 1.5 = SEG_SAMPLES` samples and exceeds that
threshold by at most one frame's worth of samples, because the threshold
check happens after each frame is appended, starting from an empty buffer. -/
theorem c5_segment_bounds (frames : List (List Sample))
    (hfr : ∀ f ∈ frames, f.length = BLOCKSIZE) :
    ∀ s ∈ (segRun [] frames).2,
      SEG_SAMPLES ≤ s.length ∧ s.length ≤ SEG_SAMPLES + BLOCKSIZE := by
  intro s hs
  refine ⟨segRun_segments_ge frames [] s hs, Nat.le_of_lt ?_⟩
  exact segRun_segments_lt frames [] (by simp [SEG_SAMPLES, SAMPLE_RATE]) hfr s hs

theorem c5_segment_bounds_witness :
    (∀ f ∈ List.replicate 12 (List.replicate BLOCKSIZE (0 : Sample)),
      f.length = BLOCKSIZE)
    ∧ ∀ s ∈ (segRun [] (List.replicate 12 (List.replicate BLOCKSIZE (0 : Sample)))).2,
        SEG_SAMPLES ≤ s.length ∧ s.length ≤ SEG_SAMPLES + BLOCKSIZE :=
  ⟨fun f hf => by rw [List.eq_of_mem_replicate hf]; simp,
   c5_segment_bounds _ (fun f hf => by rw [List.eq_of_mem_replicate hf]; simp)⟩

/-- One displayed line: the pair (text, timestamp) appended to `last_lines`
on lines 150-152. Timestamps (`time.time()` floats) are modelled as ℚ. -/
structure Line where
  text : String
  ts : ℚ
deriving DecidableEq, Repr

/-- The LineStore update performed under the lock in `process_audio`
(lines 151-154): append the new line, then if the list now exceeds
`MAX_LINES`, keep only the last `MAX_LINES` entries
(`last_lines[:] = last_lines[-MAX_LINES:]`). -/
def appendLine (lines : List Line) (l : Line) : List Line :=
  if MAX_LINES < (lines ++ [l]).length then
    (lines ++ [l]).drop ((lines ++ [l]).length - MAX_LINES)
  else
    lines ++ [l]

/-- The LineStore contents after appending a sequence of lines, one by one,
to the initially empty `last_lines` (line 58). -/
def storeAppendAll (ls : List Line) : List Line := ls.foldl appendLine []

theorem appendLine_eq (s : List Line) (x : Line) :
    appendLine s x = (s ++ [x]).drop ((s ++ [x]).length - MAX_LINES) := by
  unfold appendLine
  by_cases h : MAX_LINES < (s ++ [x]).length
  · rw [if_pos h]
  · rw [if_neg h, Nat.sub_eq_zero_of_le (Nat.le_of_not_lt h), List.drop_zero]

theorem lastN_append_single (a : List Line) (x : Line) :
    ((a.drop (a.length - MAX_LINES)) ++ [x]).drop
      (((a.drop (a.length - MAX_LINES)) ++ [x]).length - MAX_LINES)
    = (a ++ [x]).drop ((a ++ [x]).length - MAX_LINES) := by
  have hM : MAX_LINES = 3 := rfl
  by_cases h : a.length ≤ MAX_LINES
  · have h0 : a.length - MAX_LINES = 0 := Nat.sub_eq_zero_of_le h
    simp [h0]
  · have hlenA : (a.drop (a.length - MAX_LINES)).length = MAX_LINES := by
      rw [List.length_drop]
      omega
    have e1 : ((a.drop (a.length - MAX_LINES)) ++ [x]).length - MAX_LINES = 1 := by
      simp only [List.length_append, hlenA, List.length_cons, List.length_nil]
      omega
    have e2 : (a ++ [x]).length - MAX_LINES = a.length - MAX_LINES + 1 := by
      simp only [List.length_append, List.length_cons, List.length_nil]
      omega
    rw [e1, List.drop_append_of_le_length (by rw [hlenA]; omega), List.drop_drop,
      e2, List.drop_append_of_le_length (by omega)]

theorem storeAppendAll_eq (ls : List Line) :
    storeAppendAll ls = ls.drop (ls.length - MAX_LINES) := by
  induction ls using List.reverseRecOn with
  | nil => simp [storeAppendAll]
  | append_singleton a x ih =>
    have : storeAppendAll (a ++ [x]) = appendLine (storeAppendAll a) x := by
      simp [storeAppendAll, List.foldl_append]
    rw [this, ih, appendLine_eq]
    exact lastN_append_single a x

/-- C2: starting from the empty store, after appending any sequence of
lines the store holds exactly the most recent `min n MAX_LINES` lines in
insertion order (the suffix of the appended sequence), its length never
exceeds `MAX_LINES`, and the oldest entries are dropped first on overflow;
in particular, with `MAX_LINES = 3`, appending lines with texts
"a", "b", "c", "d" in order yields exactly the lines "b", "c", "d". -/
theorem c2_linestore_rolling (ls : List Line) :
    storeAppendAll ls = ls.drop (ls.length - MAX_LINES)
    ∧ (storeAppendAll ls).length = min ls.length MAX_LINES
    ∧ (storeAppendAll ls).length ≤ MAX_LINES
    ∧ storeAppendAll [⟨"a", 0⟩, ⟨"b", 1⟩, ⟨"c", 2⟩, ⟨"d", 3⟩]
        = [⟨"b", 1⟩, ⟨"c", 2⟩, ⟨"d", 3⟩] := by
  have hlen : (storeAppendAll ls).length = min ls.length MAX_LINES := by
    rw [storeAppendAll_eq, List.length_drop]
    omega
  refine ⟨storeAppendAll_eq ls, hlen, ?_, ?_⟩
  · rw [hlen]; omega
  · rw [storeAppendAll_eq]
    rfl

/-- The snapshot taken by the stream generator on line 114
(`cur = list(last_lines)` under the lock): a copy of the current list is
returned and the store itself is left as it was. In the pure embedding the
copy is the list value and the unchanged store is returned alongside it. -/
def snapshot (store : List Line) : List Line × List Line := (store, store)

/-- C7: taking a snapshot twice with no intervening append yields equal
copies, and snapshotting does not mutate the store. -/
theorem c7_snapshot_idempotent (store : List Line) :
    (snapshot store).1 = (snapshot (snapshot store).2).1
    ∧ (snapshot (snapshot store).2).2 = store :=
  ⟨rfl, rfl⟩

/-- One element of the JSON array built on lines 116-118: the object
with fields `text` and `ts` serialized for one stored line. -/
structure EventObj where
  text : String
  ts : ℚ
deriving DecidableEq, Repr

/-- The event payload of lines 116-118: one `{text, ts}` object per line of
the snapshot, in the snapshot's (insertion) order. -/
def eventPayload (cur : List Line) : List EventObj :=
  cur.map fun l => ⟨l.text, l.ts⟩

/-- One iteration of the `while True` polling loop of `event_stream`
(lines 112-120): take a snapshot `cur` of `last_lines` under the lock;
if `cur != prev` (where `prev` starts as `None`, modelled as `none`, and
`None` compares unequal to every list) yield one event whose payload is the
serialized snapshot and remember `cur` as the new `prev`; otherwise yield
nothing and keep `prev`. Returns the emitted event, if any, and the new
`prev`. -/
def event_stream_step (store : List Line) (prev : Option (List Line)) :
    Option (List EventObj) × Option (List Line) :=
  if some (snapshot store).1 ≠ prev then
    (some (eventPayload (snapshot store).1), some (snapshot store).1)
  else
    (none, prev)

/-- C4: on a poll iteration of the stream generator whose connection has
already sent a snapshot `prevList`, an event is emitted if and only if the
current snapshot differs by value from `prevList`; when emitted, the
payload is the JSON array with one `{text, ts}` object per stored line in
insertion (oldest-to-newest) order and the remembered snapshot becomes the
current one; and whenever the store respects the `MAX_LINES` bound the
payload length is at most `MAX_LINES`. -/
theorem c4_stream_emission (store prevList : List Line) :
    ((event_stream_step store (some prevList)).1 ≠ none ↔ store ≠ prevList)
    ∧ (store ≠ prevList →
        (event_stream_step store (some prevList)).1 = some (eventPayload store)
        ∧ (event_stream_step store (some prevList)).2 = some store)
    ∧ (store = prevList → (event_stream_step store (some prevList)).1 = none)
    ∧ eventPayload store = store.map (fun l => ⟨l.text, l.ts⟩)
    ∧ (store.length ≤ MAX_LINES → (eventPayload store).length ≤ MAX_LINES) := by
  refine ⟨?_, ?_, ?_, rfl, ?_⟩
  · by_cases h : store = prevList <;> simp [event_stream_step, snapshot, h]
  · intro h
    constructor <;> simp [event_stream_step, snapshot, h]
  · intro h
    simp [event_stream_step, snapshot, h]
  · intro h
    simpa [eventPayload] using h

theorem c4_stream_emission_witness :
    (([⟨"a", 0⟩] : List Line) ≠ [])
    ∧ (event_stream_step [⟨"a", 0⟩] (some [])).1 = some (eventPayload [⟨"a", 0⟩])
    ∧ (([⟨"a", 0⟩] : List Line).length ≤ MAX_LINES)
    ∧ (eventPayload [⟨"a", 0⟩]).length ≤ MAX_LINES :=
  ⟨by decide,
   ((c4_stream_emission [⟨"a", 0⟩] []).2.1 (by decide)).1,
   by decide,
   (c4_stream_emission [⟨"a", 0⟩] []).2.2.2.2 (by decide)⟩

/-- C8: a fresh connection starts its generator with `prev = None`
(line 111), which compares unequal to every snapshot list, so the first
poll iteration always emits one event carrying the current snapshot — in
particular the empty array when the store is empty — before any LineStore
change is needed. -/
theorem c8_initial_event (store : List Line) :
    (event_stream_step store none).1 = some (eventPayload store)
    ∧ (event_stream_step store none).2 = some store
    ∧ (event_stream_step [] none).1 = some [] := by
  refine ⟨?_, ?_, ?_⟩ <;> simp [event_stream_step, snapshot, eventPayload]

/-- Whitespace test for Python `str.strip()` with no argument: the ASCII
whitespace characters CPython strips (space, tab, line feed, carriage
return, vertical tab, form feed). -/
def isPySpace (c : Char) : Bool :=
  c = ' ' || c = '\t' || c = '\n' || c = '\r' || c = '\x0b' || c = '\x0c'

/-- Python `result["text"].strip()` from line 146: remove leading and
trailing whitespace characters from the engine's text. -/
def pyStrip (s : String) : String :=
  ⟨((s.data.dropWhile isPySpace).reverse.dropWhile isPySpace).reverse⟩

theorem pyStrip_all_space (s : String) (h : ∀ c ∈ s.data, isPySpace c) :
    pyStrip s = "" := by
  unfold pyStrip
  have h1 : s.data.dropWhile isPySpace = [] := List.dropWhile_eq_nil_iff.2 h
  rw [h1]
  rfl

/-- The per-segment body of `process_audio` (lines 137-157) once the
threshold is reached: the engine call (`model.transcribe`) either raises —
modelled as `Except.error`, caught by the `except` branch, which only logs
the error — or returns text, which is stripped of surrounding whitespace;
only a non-empty stripped result is appended (with the current timestamp)
to the line store. Returns the new line list and the log messages
produced. -/
def processSegment (lines : List Line) (engine : Except String String) (ts : ℚ) :
    List Line × List String :=
  match engine with
  | Except.error e => (lines, ["Whisper error: " ++ e])
  | Except.ok raw =>
    if pyStrip raw ≠ "" then
      (appendLine lines ⟨pyStrip raw, ts⟩, ["Detected: " ++ pyStrip raw])
    else
      (lines, [])

/-- One full iteration of the `while True` loop of `process_audio`
(lines 130-159) on one popped frame: append the frame to the buffer; when
the threshold is reached, run the per-segment body and reset the buffer —
the reset on line 159 sits after the `try`/`except`, so it happens whether
or not the engine raised. Returns the new buffer, the new line store, and
the log messages. -/
def loopStep (buffer : List Sample) (lines : List Line) (frame : List Sample)
    (engine : Except String String) (ts : ℚ) :
    List Sample × List Line × List String :=
  if segThreshold ≤ (((buffer ++ frame).length : Nat) : ℚ) then
    ([], (processSegment lines engine ts).1, (processSegment lines engine ts).2)
  else
    (buffer ++ frame, lines, [])

/-- The `process_audio` loop run over a list of popped frames, each paired
with the engine outcome and timestamp that apply if that frame completes a
segment. -/
def runLoop (buffer : List Sample) (lines : List Line) :
    List (List Sample × Except String String × ℚ) → List Sample × List Line
  | [] => (buffer, lines)
  | (f, engine, ts) :: rest =>
    runLoop (loopStep buffer lines f engine ts).1
      (loopStep buffer lines f engine ts).2.1 rest

/-- Error message used in the engine-failure scenarios below. -/
def engineFailure : String := "boom"

/-- C3: when the engine raises on a segment, the exception is caught and
logged as a Whisper error, the LineStore is left unchanged by that
segment, the segment buffer is still reset to empty, and the loop
continues with the remaining frames from that reset state — the pipeline
does not terminate on an engine failure. -/
theorem c3_engine_error_isolated (buffer : List Sample) (lines : List Line)
    (frame : List Sample) (e : String) (ts : ℚ)
    (rest : List (List Sample × Except String String × ℚ))
    (hfull : SEG_SAMPLES ≤ (buffer ++ frame).length) :
    loopStep buffer lines frame (Except.error e) ts
      = ([], lines, ["Whisper error: " ++ e])
    ∧ runLoop buffer lines ((frame, Except.error e, ts) :: rest)
      = runLoop [] lines rest := by
  have hc : segThreshold ≤ (((buffer ++ frame).length : Nat) : ℚ) :=
    (segThreshold_le_iff _).2 hfull
  have hstep : loopStep buffer lines frame (Except.error e) ts
      = ([], lines, ["Whisper error: " ++ e]) := by
    unfold loopStep
    rw [if_pos hc]
    rfl
  refine ⟨hstep, ?_⟩
  have hrw : runLoop buffer lines ((frame, Except.error e, ts) :: rest)
      = runLoop (loopStep buffer lines frame (Except.error e) ts).1
          (loopStep buffer lines frame (Except.error e) ts).2.1 rest := rfl
  rw [hrw, hstep]

theorem c3_engine_error_isolated_witness :
    (SEG_SAMPLES ≤ ((List.replicate SEG_SAMPLES (0 : Sample)) ++ ([] : List Sample)).length)
    ∧ loopStep (List.replicate SEG_SAMPLES (0 : Sample)) [] []
        (Except.error engineFailure) 0
      = ([], [], ["Whisper error: " ++ engineFailure])
    ∧ runLoop (List.replicate SEG_SAMPLES (0 : Sample)) []
        [([], Except.error engineFailure, 0)]
      = runLoop [] [] [] :=
  ⟨by simp,
   (c3_engine_error_isolated (List.replicate SEG_SAMPLES (0 : Sample)) [] []
     engineFailure 0 [] (by simp)).1,
   (c3_engine_error_isolated (List.replicate SEG_SAMPLES (0 : Sample)) [] []
     engineFailure 0 [] (by simp)).2⟩

/-- C6: when the engine returns empty or whitespace-only text for a
segment, stripping the surrounding whitespace leaves the empty string, the
truthiness test on line 148 fails, no line is appended and nothing is
logged: the LineStore after that segment is exactly what it was before. -/
theorem c6_blank_result_no_line (lines : List Line) (raw : String) (ts : ℚ)
    (hblank : ∀ c ∈ raw.data, isPySpace c) :
    pyStrip raw = "" ∧ processSegment lines (Except.ok raw) ts = (lines, []) := by
  have h := pyStrip_all_space raw hblank
  refine ⟨h, ?_⟩
  simp [processSegment, h]

/-- Whitespace-only engine output used in the blank-result scenario. -/
def blankResult : String := " \t\n"

theorem c6_blank_result_no_line_witness :
    (∀ c ∈ blankResult.data, isPySpace c)
    ∧ pyStrip blankResult = ""
    ∧ processSegment [] (Except.ok blankResult) 0 = ([], []) :=
  ⟨by decide,
   (c6_blank_result_no_line [] blankResult 0 (by decide)).1,
   (c6_blank_result_no_line [] blankResult 0 (by decide)).2⟩

/-- Truncation toward zero: the rounding performed by numpy when casting a
float array to an integer dtype with `astype` (line 135). -/
def truncToInt (q : ℚ) : ℤ := if 0 ≤ q then ⌊q⌋ else ⌈q⌉

/-- The 16-bit PCM conversion of line 135
(`(buffer * 32767).astype(np.int16)`), applied to one sample: scale by
32767, then truncate toward zero. -/
def toPCM (s : Sample) : ℤ := truncToInt (s * 32767)

/-- Two's-complement wraparound into the int16 range, which is what the
int16 cast would do to an out-of-range value. -/
def wrapInt16 (z : ℤ) : ℤ := (z + 32768) % 65536 - 32768

/-- C9: for every sample in the normalized range [-1, 1], the PCM
conversion produces an integer in [-32767, 32767], inside the int16 range
[-32768, 32767], so the cast to int16 does not wrap around or overflow. -/
theorem c9_pcm_no_overflow (s : Sample) (h1 : -1 ≤ s) (h2 : s ≤ 1) :
    -32767 ≤ toPCM s ∧ toPCM s ≤ 32767 ∧ wrapInt16 (toPCM s) = toPCM s := by
  have hlo : (-32767 : ℚ) ≤ s * 32767 := by nlinarith
  have hhi : s * 32767 ≤ 32767 := by nlinarith
  have hb : -32767 ≤ toPCM s ∧ toPCM s ≤ 32767 := by
    unfold toPCM truncToInt
    by_cases hq : 0 ≤ s * 32767
    · rw [if_pos hq]
      constructor
      · have h0 : (0 : ℤ) ≤ ⌊s * 32767⌋ := Int.floor_nonneg.2 hq
        omega
      · have hf : (⌊s * 32767⌋ : ℚ) ≤ 32767 := le_trans (Int.floor_le _) hhi
        exact_mod_cast hf
    · rw [if_neg hq]
      push_neg at hq
      constructor
      · have hch : (-32767 : ℚ) ≤ (⌈s * 32767⌉ : ℚ) := le_trans hlo (Int.le_ceil _)
        exact_mod_cast hch
      · have h0 : ⌈s * 32767⌉ ≤ 0 := by
          rw [show (0 : ℤ) = ((0 : ℤ) : ℤ) from rfl]
          exact Int.ceil_le.2 (by exact_mod_cast hq.le)
        omega
  refine ⟨hb.1, hb.2, ?_⟩
  unfold wrapInt16
  have h3 : (0 : ℤ) ≤ toPCM s + 32768 := by omega
  have h4 : toPCM s + 32768 < 65536 := by omega
  rw [Int.emod_eq_of_lt h3 h4]
  omega

theorem c9_pcm_no_overflow_witness :
    ((-1 : ℚ) ≤ 1 / 2 ∧ (1 / 2 : ℚ) ≤ 1)
    ∧ (-32767 ≤ toPCM (1 / 2) ∧ toPCM (1 / 2) ≤ 32767
        ∧ wrapInt16 (toPCM (1 / 2)) = toPCM (1 / 2)) :=
  ⟨⟨by norm_num, by norm_num⟩,
   c9_pcm_no_overflow (1 / 2) (by norm_num) (by norm_num)⟩

/-- The capture callback `audio_callback` (lines 49-52): if the device
reported a status it is logged as a warning (`logging.warning(status)`);
the frame is then copied and enqueued unconditionally
(`audio_queue.put(indata.copy())`). The device status is modelled as a
string whose truthiness is non-emptiness, the queue as the list of frames
enqueued so far, and the log as the list of warning messages emitted. -/
def audio_callback (q : List (List Sample)) (indata : List Sample)
    (status : String) : List (List Sample) × List String :=
  (q ++ [indata], if status ≠ "" then [status] else [])

/-- Device status used in the status-warning scenario. -/
def overflowStatus : String := "input overflow"

/-- C10: a non-empty device status makes the callback log a warning, and
the frame is still enqueued at the back of the queue — the callback is a
total function and a status condition never drops the frame. -/
theorem c10_status_never_drops (q : List (List Sample)) (indata : List Sample)
    (status : String) (hs : status ≠ "") :
    (audio_callback q indata status).1 = q ++ [indata]
    ∧ status ∈ (audio_callback q indata status).2 := by
  refine ⟨rfl, ?_⟩
  simp [audio_callback, hs]

theorem c10_status_never_drops_witness :
    (overflowStatus ≠ "")
    ∧ (audio_callback [] [(0 : Sample)] overflowStatus).1 = [] ++ [[(0 : Sample)]]
    ∧ overflowStatus ∈ (audio_callback [] [(0 : Sample)] overflowStatus).2 :=
  ⟨by decide,
   (c10_status_never_drops [] [(0 : Sample)] overflowStatus (by decide)).1,
   (c10_status_never_drops [] [(0 : Sample)] overflowStatus (by decide)).2⟩
